import Mathlib

/-!
# Mini-Traycer: verification of the strategy-selection and breakdown pipeline

Shallow embedding of the core of the Mini-Traycer repository:

* the task classifier (`parseTask`, from `src/core/parser.ts`),
* the template strategy (`HardcodedStrategy`, from `src/strategies/HardcodedStrategy.ts`),
* the remote-model strategy's configuration loading, retry interceptor and
  response validation (`LLMStrategy`, from `src/strategies/LLMStrategy.ts`),
* the orchestrator (`Analyzer`, from `src/core/analyzer.ts`).

Strings are modelled as Lean `String`s and, where character-level regex work is
required, as their underlying `List Char`.  JavaScript's `toLowerCase`, regex
character classes and `String.prototype.trim` act on ASCII here, which is the
range every keyword and character class of the source uses.
-/

set_option autoImplicit false

namespace MiniTraycer

/-- The `TaskType` enumeration from `src/types/analysis.ts`. -/
inductive TaskType where
  | CRUD
  | AUTHENTICATION
  | REFACTOR
  | FEATURE
  | BUGFIX
  | OTHER
deriving DecidableEq, Repr

/-- The `Task` interface from `src/types/analysis.ts`. -/
structure Task where
  description : String
  type : TaskType
  scope : String
deriving DecidableEq, Repr

/-- The `Step` interface from `src/types/analysis.ts`.  `id` is a JS number;
the values the program puts there are integers, so we use `Int`. -/
structure Step where
  id : Int
  title : String
  description : String
  files : List String
deriving DecidableEq, Repr

/-- The `TaskBreakdown` interface from `src/types/analysis.ts`. -/
structure TaskBreakdown where
  taskDescription : String
  steps : List Step
deriving DecidableEq, Repr

/-! ## Character classes

The source manipulates strings through regexes over ASCII classes.  We model
the classes by code point, exactly as the regex ranges `a-z`, `A-Z`, `0-9`
are defined. -/

/-- `[0-9]`, the regex `\d` range used inside `\w`. -/
def isDigitCh (c : Char) : Bool := 48 ≤ c.toNat && c.toNat ≤ 57

/-- `[A-Z]`. -/
def isUpperCh (c : Char) : Bool := 65 ≤ c.toNat && c.toNat ≤ 90

/-- `[a-z]`. -/
def isLowerCh (c : Char) : Bool := 97 ≤ c.toNat && c.toNat ≤ 122

/-- The regex word class `\w = [A-Za-z0-9_]`. -/
def isWordChar (c : Char) : Bool := isUpperCh c || isLowerCh c || isDigitCh c || c == '_'

/-- Whitespace, for the regex class `\s` and for `String.prototype.trim`
(ASCII part: space and `\t\n\v\f\r`). -/
def isWs (c : Char) : Bool := c.toNat = 32 || (9 ≤ c.toNat && c.toNat ≤ 13)

/-- ASCII lowercasing: what `toLowerCase` and the `i` regex flag do on the
ASCII range. -/
def lcChar (c : Char) : Char :=
  if 65 ≤ c.toNat ∧ c.toNat ≤ 90 then Char.ofNat (c.toNat + 32) else c

/-- Lowercase a character list (`description.toLowerCase()`). -/
def lowerStr (l : List Char) : List Char := l.map lcChar

/-- JS `String.prototype.trim`: drop whitespace from both ends. -/
def trimList (l : List Char) : List Char :=
  ((l.dropWhile isWs).reverse.dropWhile isWs).reverse

/-! ## Regex containment tests

`parseTask` classifies with `RegExp.test`, i.e. "does the pattern match
anywhere in the string".  For alternations of literal words this is substring
containment; `\b`-delimited words additionally need non-word characters (or
the string ends) around the occurrence. -/

/-- Does `sub` occur as a contiguous substring of `l`?  (`/sub/.test l`.) -/
def containsSub (sub : List Char) : List Char → Bool
  | [] => sub.isEmpty
  | c :: cs => sub.isPrefixOf (c :: cs) || containsSub sub cs

/-- `w` occurs at the head of `l` with a word boundary after it: `w` is a
prefix and the following character, if any, is not a word character. -/
def wordAt (w : List Char) (l : List Char) : Bool :=
  w.isPrefixOf l &&
    (match l.drop w.length with
     | [] => true
     | c :: _ => !isWordChar c)

/-- Scan `l` for a whole-word occurrence of `w`; `prevOk` records that the
character before the current position (if any) was not a word character,
i.e. that a `\b` boundary is present. -/
def containsWordAux (w : List Char) (prevOk : Bool) : List Char → Bool
  | [] => false
  | c :: cs => (prevOk && wordAt w (c :: cs)) || containsWordAux w (!isWordChar c) cs

/-- `/\bw\b/.test l` for a word `w` made of word characters. -/
def containsWord (w : List Char) (l : List Char) : Bool := containsWordAux w true l

/-! ## The classifier (`parseTask`, `src/core/parser.ts`) -/

/-- Classification chain of `parseTask`: the five regex tests applied to the
lowercased description, in source order, first match wins, default `OTHER`.

* `/\b(create|read|update|delete|crud)\b/`
* `/auth(entication)?|login|logout|register|signup|signin/` — the optional
  group `(entication)?` matches wherever the mandatory part `auth` does, so
  as a containment test the first alternative is containment of `auth`.
* `/refactor|restructure|clean up|improve code/`
* `/feature|add|implement|support|enhance/`
* `/bug|fix|error|issue|defect|patch/` -/
def parseTaskType (description : String) : TaskType :=
  let lower := lowerStr description.data
  if containsWord "create".data lower || containsWord "read".data lower ||
     containsWord "update".data lower || containsWord "delete".data lower ||
     containsWord "crud".data lower then
    .CRUD
  else if containsSub "auth".data lower || containsSub "login".data lower ||
     containsSub "logout".data lower || containsSub "register".data lower ||
     containsSub "signup".data lower || containsSub "signin".data lower then
    .AUTHENTICATION
  else if containsSub "refactor".data lower || containsSub "restructure".data lower ||
     containsSub "clean up".data lower || containsSub "improve code".data lower then
    .REFACTOR
  else if containsSub "feature".data lower || containsSub "add".data lower ||
     containsSub "implement".data lower || containsSub "support".data lower ||
     containsSub "enhance".data lower then
    .FEATURE
  else if containsSub "bug".data lower || containsSub "fix".data lower ||
     containsSub "error".data lower || containsSub "issue".data lower ||
     containsSub "defect".data lower || containsSub "patch".data lower then
    .BUGFIX
  else
    .OTHER

/-- The capture class `[\w\s./\-]` of the scope regex. -/
def scopeClassChar (c : Char) : Bool :=
  isWordChar c || isWs c || c == '.' || c == '/' || c == '-'

/-- The identifier class `[\w./\-]` of the entity regex. -/
def identChar (c : Char) : Bool := isWordChar c || c == '.' || c == '/' || c == '-'

/-- One attempted match of `/(?:in|for|to) ([\w\s./\-]+)/i` at the head of `l`:
`klen` is the length of the matched keyword plus the following space; the
greedy capture must be non-empty. -/
def prepCapture (l : List Char) (klen : Nat) : Option (List Char) :=
  let cap := (l.drop klen).takeWhile scopeClassChar
  if cap = [] then none else some cap

/-- Try the alternation `in|for|to` (each followed by a space, then a
non-empty capture) at the head of `l`, alternatives in source order; the
three keywords start with distinct letters, so at most one can match at a
given position. -/
def prepAt (l : List Char) : Option (List Char) :=
  if "in ".data.isPrefixOf (lowerStr l) then prepCapture l 3
  else if "for ".data.isPrefixOf (lowerStr l) then prepCapture l 4
  else if "to ".data.isPrefixOf (lowerStr l) then prepCapture l 3
  else none

/-- Leftmost match of the preposition scope regex: scan positions left to
right, as the regex engine does. -/
def scanPrep : List Char → Option (List Char)
  | [] => none
  | c :: cs =>
    match prepAt (c :: cs) with
    | some cap => some cap
    | none => scanPrep cs

/-- One attempted match of a single entity keyword (regex alternative
`kw ([\w./\-]+)` under the `i` flag) at the head of `l`; returns the
original-case keyword and identifier captures. -/
def entityTry (kw : List Char) (l : List Char) : Option (List Char × List Char) :=
  if (kw ++ [' ']).isPrefixOf (lowerStr l) then
    let cap := (l.drop (kw.length + 1)).takeWhile identChar
    if cap = [] then none else some (l.take kw.length, cap)
  else none

/-- The alternation `function|file|class|module|component` at the head of
`l`, alternatives in source order. -/
def entityAt (l : List Char) : Option (List Char × List Char) :=
  match entityTry "function".data l with
  | some r => some r
  | none =>
    match entityTry "file".data l with
    | some r => some r
    | none =>
      match entityTry "class".data l with
      | some r => some r
      | none =>
        match entityTry "module".data l with
        | some r => some r
        | none => entityTry "component".data l

/-- Leftmost match of `/(function|file|class|module|component) ([\w./\-]+)/i`. -/
def scanEntity : List Char → Option (List Char × List Char)
  | [] => none
  | c :: cs =>
    match entityAt (c :: cs) with
    | some r => some r
    | none => scanEntity cs

/-- `parseTask` from `src/core/parser.ts`: classify the type, then extract
the scope (preposition pattern first, entity pattern as fallback, empty
string otherwise). -/
def parseTask (description : String) : Task :=
  { description := description
    type := parseTaskType description
    scope :=
      match scanPrep description.data with
      | some cap => String.mk (trimList cap)
      | none =>
        match scanEntity description.data with
        | some (kw, ident) => String.mk (kw ++ ' ' :: ident)
        | none => "" }

/-! ## The template strategy (`HardcodedStrategy`, `src/strategies/HardcodedStrategy.ts`) -/

/-- JS `a || b` for strings: the empty string is falsy. -/
def jsOrStr (s d : String) : String := if s = "" then d else s

/-- The class `[_\s]` replaced by a hyphen in `sanitizeScope`. -/
def isUnderscoreWs (c : Char) : Bool := c == '_' || isWs c

/-- The class `[a-zA-Z0-9-]` kept by `sanitizeScope`
(`replace(/[^a-zA-Z0-9-]/g, "")`). -/
def isAlnumHyphen (c : Char) : Bool := isUpperCh c || isLowerCh c || isDigitCh c || c == '-'

/-- A hyphen, for the run-collapsing step `replace(/\-+/g, "-")`. -/
def isHyphen (c : Char) : Bool := c == '-'

/-- `replace(/p+/g, r)`: every maximal run of characters satisfying `p` is
replaced by the single character `r`; `inRun` records that the previous
character belonged to a run already replaced. -/
def replRunsAux (p : Char → Bool) (r : Char) : Bool → List Char → List Char
  | _, [] => []
  | inRun, c :: cs =>
    if p c then
      if inRun then replRunsAux p r true cs
      else r :: replRunsAux p r true cs
    else c :: replRunsAux p r false cs

/-- `replace(/p+/g, r)` on a whole string. -/
def replRuns (p : Char → Bool) (r : Char) (l : List Char) : List Char :=
  replRunsAux p r false l

/-- `replace(/^\-+|\-+$/g, "")`: strip hyphens from both ends. -/
def trimHyphens (l : List Char) : List Char :=
  ((l.dropWhile isHyphen).reverse.dropWhile isHyphen).reverse

/-- The transformation chain of `HardcodedStrategy.sanitizeScope` applied to
a non-empty input: trim, `[_\s]+` to `-`, drop non-alphanumeric-non-hyphen,
collapse hyphen runs, lowercase, strip boundary hyphens. -/
def sanitizePipeline (l : List Char) : List Char :=
  let s1 := trimList l
  let s2 := replRuns isUnderscoreWs '-' s1
  let s3 := s2.filter isAlnumHyphen
  let s4 := replRuns isHyphen '-' s3
  let s5 := s4.map lcChar
  trimHyphens s5

/-- `HardcodedStrategy.sanitizeScope`: the falsy guard returns `"scope"` for
the empty string, and the pipeline result falls back to `"scope"` when it
comes out empty. -/
def sanitizeScope (scope : String) : String :=
  if scope = "" then "scope"
  else
    let s := sanitizePipeline scope.data
    if s = [] then "scope" else String.mk s

/-- The separator class `[\s,:]` of `summarizeScopeFromDescription`. -/
def isSepSplit (c : Char) : Bool := isWs c || c == ',' || c == ':'

/-- `[a-zA-Z0-9]`, kept by the per-token strip in
`summarizeScopeFromDescription`. -/
def isAlnumCh (c : Char) : Bool := isUpperCh c || isLowerCh c || isDigitCh c

/-- `description.split(/[\s,:]+/).filter(Boolean)`: the maximal runs of
non-separator characters (splitting on separator runs and discarding the
empty pieces coincide). -/
def splitTokens (l : List Char) : List (List Char) :=
  (l.foldr
    (fun c acc =>
      if isSepSplit c then [] :: acc
      else
        match acc with
        | [] => [[c]]
        | t :: ts => (c :: t) :: ts)
    []).filter (fun t => !t.isEmpty)

/-- `HardcodedStrategy.summarizeScopeFromDescription`: first token of the
description (split on `[\s,:]+`, non-alphanumerics stripped), truncated to
20 characters, falling back to `"task"`. -/
def summarizeScopeFromDescription (description : String) : String :=
  if description = "" then "task"
  else
    let tokens := (splitTokens description.data).map (·.filter isAlnumCh)
    match tokens with
    | [] => "task"
    | t :: _ =>
      let candidate := t.take 20
      if candidate = [] then "task" else String.mk candidate

/-- `HardcodedStrategy.generateCRUDSteps`. -/
def generateCRUDSteps (task : Task) : List Step :=
  let raw := jsOrStr task.scope "item"
  let scope := sanitizeScope raw
  let modelFile := "src/models/" ++ scope ++ ".ts"
  let controllerFile := "src/controllers/" ++ scope ++ "Controller.ts"
  let routesFile := "src/routes/" ++ scope ++ "Routes.ts"
  let validatorFile := "src/validators/" ++ scope ++ "Validator.ts"
  let testFile := "tests/" ++ scope ++ ".test.ts"
  let docsFile := "docs/api/" ++ scope ++ ".md"
  [ { id := 1
      title := "Create " ++ raw ++ " data model"
      description := "Define the " ++ raw ++ " data model/entity with required fields and types based on the task scope. Include timestamps, relations, and validation decorators if applicable."
      files := [modelFile] }
  , { id := 2
      title := "Create " ++ raw ++ " controller with CRUD operations"
      description := "Implement controller logic for Create, Read, Update and Delete operations for " ++ raw ++ ". Ensure proper layering (service/controller) if your architecture expects it."
      files := [controllerFile] }
  , { id := 3
      title := "Define API routes for " ++ raw
      description := "Add RESTful routes for creating, listing, retrieving, updating, and deleting " ++ raw ++ " resources. Connect routes to the controller handlers and include route-level validation where needed."
      files := [routesFile] }
  , { id := 4
      title := "Add input validation and error handling"
      description := "Implement input validators and error handling for all CRUD endpoints to prevent malformed data and return consistent HTTP error responses."
      files := [validatorFile] }
  , { id := 5
      title := "Write unit tests for CRUD operations"
      description := "Create unit tests that cover happy-path and failure scenarios for the CRUD endpoints and controller logic to ensure correctness and prevent regressions."
      files := [testFile] }
  , { id := 6
      title := "Update API documentation"
      description := "Document the new " ++ raw ++ " endpoints, request/response shapes, and example usages in the API documentation so other developers and clients know how to use them."
      files := [docsFile] } ]

/-- `HardcodedStrategy.generateAuthSteps`: the seven fixed authentication
steps; titles, descriptions and paths do not depend on the task. -/
def generateAuthSteps (_task : Task) : List Step :=
  [ { id := 1
      title := "Create User model with password field"
      description := "Create a User model that includes fields for email/username and a hashed password, plus any profile metadata required by the application."
      files := ["src/models/User.ts"] }
  , { id := 2
      title := "Implement password hashing utility"
      description := "Add a secure password hashing utility (e.g., bcrypt wrapper) responsible for hashing and verifying passwords before storage or authentication attempts."
      files := ["src/utils/hash.ts"] }
  , { id := 3
      title := "Create JWT token generation and verification utilities"
      description := "Implement JWT creation and verification utilities to sign authentication tokens, include expiration handling, and provide a secure secret or key management approach."
      files := ["src/utils/jwt.ts"] }
  , { id := 4
      title := "Implement authentication middleware"
      description := "Add middleware to verify tokens on protected routes, attach authenticated user context to requests, and handle authentication errors consistently."
      files := ["src/middleware/auth.ts"] }
  , { id := 5
      title := "Create login and signup endpoints"
      description := "Implement endpoints for user registration and login that use the hashing and JWT utilities. Ensure proper validation, duplicate checks, and secure responses."
      files := ["src/routes/auth.ts"] }
  , { id := 6
      title := "Add session management or token refresh logic"
      description := "Implement session handling or token refresh mechanisms (refresh tokens or rotating tokens) to maintain user sessions securely and allow token renewal."
      files := ["src/controllers/authController.ts"] }
  , { id := 7
      title := "Write authentication tests"
      description := "Add unit and integration tests that cover registration, login, protected routes, token expiration, and refresh flows to prevent authentication regressions."
      files := ["tests/auth.test.ts"] } ]

/-- `HardcodedStrategy.generateRefactorSteps`. -/
def generateRefactorSteps (task : Task) : List Step :=
  let raw := jsOrStr task.scope "code"
  let scope := sanitizeScope raw
  let utilsFile := "src/utils/" ++ scope ++ "Utils.ts"
  let testFile := "tests/" ++ scope ++ ".test.ts"
  let primaryFile := "src/" ++ scope ++ ".ts"
  [ { id := 1
      title := "Identify code smells in " ++ raw
      description := "Run static analysis and manually inspect the " ++ raw ++ " area to identify duplicated code, large functions, tight coupling, and other code smells that should be addressed."
      files := [primaryFile] }
  , { id := 2
      title := "Extract reusable functions and utilities"
      description := "Refactor duplicated or tightly-coupled logic into reusable helper functions or modules to improve modularity and testability."
      files := [utilsFile] }
  , { id := 3
      title := "Simplify complex logic and improve readability"
      description := "Break down large functions, simplify conditional logic, and rename variables/functions for clarity within the affected files."
      files := [primaryFile] }
  , { id := 4
      title := "Update or add missing unit tests"
      description := "Ensure existing functionality is covered by tests and add tests for refactored pieces to guard against regressions."
      files := [testFile] }
  , { id := 5
      title := "Document refactored code and update comments"
      description := "Update inline comments, README sections, or design notes to reflect the refactored structure and any public interfaces that changed."
      files := [primaryFile] } ]

/-- `HardcodedStrategy.generateFeatureSteps`. -/
def generateFeatureSteps (task : Task) : List Step :=
  let raw := jsOrStr task.scope "feature"
  let scope := sanitizeScope raw
  let featureFile := "src/features/" ++ scope ++ ".ts"
  let routesFile := "src/routes/" ++ scope ++ "Routes.ts"
  let uiComponent := "src/components/" ++ scope ++ ".tsx"
  let configFile := "src/config/" ++ scope ++ ".config.ts"
  let testFile := "tests/" ++ scope ++ ".integration.test.ts"
  let docsFile := "docs/" ++ scope ++ ".md"
  [ { id := 1
      title := "Design feature architecture for " ++ raw
      description := "Outline the architecture for the " ++ raw ++ " feature: services, data models, APIs, and UI components that will be required and how they interact."
      files := [] }
  , { id := 2
      title := "Implement core feature logic"
      description := "Develop the main business logic for the " ++ raw ++ " feature, ensuring separation of concerns and adherence to existing patterns in the codebase."
      files := [featureFile] }
  , { id := 3
      title := "Create API endpoints or UI components"
      description := "Expose the feature via API routes or UI components as appropriate. If backend-focused, add REST endpoints; if frontend, create component(s) for user interaction."
      files := [routesFile, uiComponent] }
  , { id := 4
      title := "Add configuration and environment variables"
      description := "Add any required configuration entries or environment variables, and document expected values and defaults."
      files := [configFile] }
  , { id := 5
      title := "Write integration tests for the feature"
      description := "Create integration tests that validate the feature end-to-end, including interactions between components and any external dependencies."
      files := [testFile] }
  , { id := 6
      title := "Update documentation with feature usage"
      description := "Document the feature's behavior, API surface, configuration, and example usage to help other developers and consumers."
      files := [docsFile] } ]

/-- `HardcodedStrategy.generateBugfixSteps`. -/
def generateBugfixSteps (task : Task) : List Step :=
  let raw := jsOrStr task.scope "area"
  let scope := sanitizeScope raw
  let affectedFile := "src/" ++ scope ++ ".ts"
  let testFile := "tests/" ++ scope ++ ".regression.test.ts"
  [ { id := 1
      title := "Reproduce and identify root cause in " ++ raw
      description := "Create a minimal reproducible test or steps to reliably trigger the bug in the " ++ raw ++ " area. Gather logs and trace to identify the root cause."
      files := [affectedFile] }
  , { id := 2
      title := "Implement fix in the affected module"
      description := "Apply a targeted fix to the module responsible for the bug, keeping changes minimal and well-scoped. Add inline comments explaining the rationale."
      files := [affectedFile] }
  , { id := 3
      title := "Add regression test to prevent reoccurrence"
      description := "Add a regression test that reproduces the bug scenario and asserts the expected behavior to prevent future regressions."
      files := [testFile] }
  , { id := 4
      title := "Verify fix doesn't introduce new issues"
      description := "Run the full test suite and, if available, system/integration tests to ensure the fix did not break related functionality."
      files := [affectedFile] } ]

/-- `HardcodedStrategy.generateOtherSteps`. -/
def generateOtherSteps (task : Task) : List Step :=
  let raw := jsOrStr task.scope (summarizeScopeFromDescription task.description)
  let scope := sanitizeScope raw
  let implFile := "src/" ++ scope ++ ".ts"
  let testFile := "tests/" ++ scope ++ ".test.ts"
  [ { id := 1
      title := "Analyze requirements for: " ++ task.description
      description := "Clarify and analyze the requirements described: \"" ++ task.description ++ "\". Identify success criteria, edge cases, and dependencies."
      files := [] }
  , { id := 2
      title := "Implement the required changes"
      description := "Implement the changes or feature as planned for the scope \"" ++ raw ++ "\". Follow existing project patterns and ensure proper separation of concerns."
      files := [implFile] }
  , { id := 3
      title := "Test and validate the implementation"
      description := "Write and run tests to validate the implementation meets the requirements and does not break existing behavior."
      files := [testFile] } ]

/-- `HardcodedStrategy.analyze`: dispatch on the task type (the source's
`task.type || TaskType.OTHER` is the identity, since every `TaskType` enum
value is a non-empty — hence truthy — string) and wrap the generated steps
with the original description. -/
def HardcodedStrategy.analyze (task : Task) : TaskBreakdown :=
  { taskDescription := task.description
    steps :=
      match task.type with
      | .CRUD => generateCRUDSteps task
      | .AUTHENTICATION => generateAuthSteps task
      | .REFACTOR => generateRefactorSteps task
      | .FEATURE => generateFeatureSteps task
      | .BUGFIX => generateBugfixSteps task
      | .OTHER => generateOtherSteps task }

/-! ## The orchestrator (`Analyzer`, `src/core/analyzer.ts`)

The strategy contract's sync-or-async completion is modelled, as §9 of the
design notes prescribes, by a single result value: `analyze` is a function
to a `TaskBreakdown`. -/

/-- The `AnalyzerStrategy` interface from `src/types/analysis.ts`. -/
structure AnalyzerStrategy where
  analyze : Task → TaskBreakdown

/-- `new HardcodedStrategy()` seen through the interface. -/
def hardcodedStrategy : AnalyzerStrategy :=
  { analyze := HardcodedStrategy.analyze }

/-- The `Analyzer` class: holds exactly one strategy. -/
structure Analyzer where
  strategy : AnalyzerStrategy

/-- `constructor(strategy?: AnalyzerStrategy)`: an object is always truthy,
so `strategy || new HardcodedStrategy()` is the supplied strategy when
present and the template strategy otherwise. -/
def Analyzer.create (strategy? : Option AnalyzerStrategy) : Analyzer :=
  { strategy := strategy?.getD hardcodedStrategy }

/-- `Analyzer.run`: delegate to the held strategy. -/
def Analyzer.run (a : Analyzer) (task : Task) : TaskBreakdown :=
  a.strategy.analyze task

/-! ## Remote-model strategy: configuration (`LLMStrategy.loadConfig`) -/

/-- The `GroqConfig` interface: the configuration the strategy resolves at
construction.  The optional numeric fields are resolved to their defaults by
`loadConfig`, so the resolved record is total. -/
structure GroqConfig where
  apiKey : String
  model : String
  baseUrl : String
  maxRetries : Int
  timeout : Int
deriving DecidableEq, Repr

/-- The `groq` object of `src/config/analyzer.config.json` as
`loadConfig` reads it (`JSON.parse(...).groq || {}`): every field may be
absent.  A missing or unreadable file is the record with every field
`none`. -/
structure FileGroqConfig where
  apiKey : Option String
  model : Option String
  baseUrl : Option String
  maxRetries : Option Int
  timeout : Option Int
deriving DecidableEq, Repr

/-- JS `a || b` where `a` is a possibly-undefined string: `undefined` and
the empty string are falsy. -/
def jsOrOptStr (v : Option String) (d : String) : String :=
  match v with
  | some s => if s = "" then d else s
  | none => d

/-- JS `a || b` where `a` is a possibly-undefined number: `undefined` and
`0` are falsy. -/
def jsOrOptNum (v : Option Int) (d : Int) : Int :=
  match v with
  | some n => if n = 0 then d else n
  | none => d

/-- `LLMStrategy.loadConfig`: merge the three `GROQ_*` environment variables
(read from the process environment `env`) with the file configuration,
environment first for `apiKey`, `model` and `baseUrl`; `maxRetries` and
`timeout` are taken from the file configuration (with defaults 3 and 30000).
An empty resolved API key makes construction fail. -/
def loadConfig (env : String → Option String) (file : FileGroqConfig) :
    Except String GroqConfig :=
  let envApiKey := env "GROQ_API_KEY"
  let envModel := env "GROQ_MODEL"
  let envBaseUrl := env "GROQ_BASE_URL"
  let config : GroqConfig :=
    { apiKey := jsOrOptStr envApiKey (jsOrOptStr file.apiKey "")
      model := jsOrOptStr envModel (jsOrOptStr file.model "mixtral-8x7b-32768")
      baseUrl := jsOrOptStr envBaseUrl (jsOrOptStr file.baseUrl "https://api.groq.com/openai/v1")
      maxRetries := jsOrOptNum file.maxRetries 3
      timeout := jsOrOptNum file.timeout 30000 }
  if config.apiKey = "" then
    .error "Groq API key is required. Set GROQ_API_KEY environment variable or add it to analyzer.config.json"
  else
    .ok config

/-! ## Remote-model strategy: retry interceptor
(`LLMStrategy.setupRetryInterceptor`)

An axios outcome is a success, an HTTP error response carrying a status, or
a network-level error with no response at all.  The interceptor's decision
depends only on that shape.  A transport is a function from the attempt's
`_retryCount` (0 on the first request, `k` on the `k`-th retry) to the
outcome of that attempt; the interceptor re-issues the request through the
same client, so retries are strictly sequential. -/

/-- What one attempt of the HTTP request produced: `none` is a success,
`some e` an error, where the error either carries the response status
(`error.response.status`) or no response at all. -/
structure AxiosError where
  status? : Option Nat
deriving DecidableEq, Repr

/-- The interceptor's retry test: `error.response?.status >= 500` or no
response (`!error.response`). -/
def shouldRetry (e : AxiosError) : Bool :=
  match e.status? with
  | some s => 500 ≤ s
  | none => true

/-- The retry loop the response interceptor implements.  At `_retryCount
= rc` the request is issued; on error `e`, if `e` is retryable and `rc <
maxRetries`, the count becomes `rc + 1`, the interceptor sleeps
`2 ^ (rc + 1) * 1000` milliseconds (`Math.pow(2, config._retryCount) *
1000` after the increment) and re-issues the request; otherwise `e` is
propagated.  Returns the final result (`none` = success) and the list of
backoff delays in milliseconds, in order. -/
def retryRunAux (transport : Nat → Option AxiosError) (maxRetries : Nat)
    (rc : Nat) : Option AxiosError × List Nat :=
  match transport rc with
  | none => (none, [])
  | some e =>
    if h : shouldRetry e = true ∧ rc < maxRetries then
      let d := 2 ^ (rc + 1) * 1000
      let rest := retryRunAux transport maxRetries (rc + 1)
      (rest.1, d :: rest.2)
    else
      (some e, [])
termination_by maxRetries - rc
decreasing_by omega

/-- A whole request with the interceptor installed: first attempt at
`_retryCount = 0`. -/
def retryRun (transport : Nat → Option AxiosError) (maxRetries : Nat) :
    Option AxiosError × List Nat :=
  retryRunAux transport maxRetries 0

/-! ## Remote-model strategy: response validation
(`LLMStrategy.parseGroqResponse`)

The reply body is JSON, modelled by the `Json` inductive below; numbers are
the integers the program actually handles.  `JSON.parse` of the raw reply is
modelled as an `Option Json` input: `none` is a parse failure (the
`SyntaxError` branch).  The thrown messages are modelled by the
`GroqParseError` enumeration, one constructor per distinct `throw` site. -/

/-- A parsed JSON value. -/
inductive Json where
  | null
  | bool (b : Bool)
  | num (n : Int)
  | str (s : String)
  | arr (elems : List Json)
  | obj (fields : List (String × Json))

/-- JS property access `value.key`: field lookup on an object, `none`
(undefined) on anything else or when the key is absent. -/
def Json.getField : Json → String → Option Json
  | .obj fields, key => (fields.find? (fun f => f.1 = key)).map (·.2)
  | _, _ => none

/-- The distinct errors `parseGroqResponse` throws. -/
inductive GroqParseError where
  | invalidJson
  | missingStepsArray
  | emptySteps
  | stepMissingId (index : Nat)
  | stepMissingTitle (index : Nat)
  | stepMissingDescription (index : Nat)
  | stepFilesNotArray (index : Nat)
deriving DecidableEq, Repr

/-- Is a JSON value a string?  (`typeof f === "string"`, used to filter the
`files` entries.) -/
def Json.asString : Json → Option String
  | .str s => some s
  | _ => none

/-- Validation of one element of the `steps` array (the body of the
`parsed.steps.map` callback at 0-based `index`): numeric `id`, non-empty
trimmed `title` and `description`, array `files` whose non-string entries
are silently dropped. -/
def validateStep (step : Json) (index : Nat) : Except GroqParseError Step :=
  match step.getField "id" with
  | some (.num id) =>
    match step.getField "title" with
    | some (.str title) =>
      if String.mk (trimList title.data) = "" then .error (.stepMissingTitle index)
      else
        match step.getField "description" with
        | some (.str description) =>
          if String.mk (trimList description.data) = "" then
            .error (.stepMissingDescription index)
          else
            match step.getField "files" with
            | some (.arr files) =>
              .ok { id := id
                    title := String.mk (trimList title.data)
                    description := String.mk (trimList description.data)
                    files := files.filterMap Json.asString }
            | _ => .error (.stepFilesNotArray index)
        | _ => .error (.stepMissingDescription index)
    | _ => .error (.stepMissingTitle index)
  | _ => .error (.stepMissingId index)

/-- `parsed.steps.map(...)` with a throwing callback: the first failing
element aborts the whole traversal. -/
def validateSteps : List Json → Nat → Except GroqParseError (List Step)
  | [], _ => .ok []
  | step :: rest, index => do
    let s ← validateStep step index
    let tail ← validateSteps rest (index + 1)
    .ok (s :: tail)

/-- `parseGroqResponse` after `JSON.parse` succeeded: require a `steps`
field that is an array (`!parsed.steps || !Array.isArray(parsed.steps)` —
an array is always truthy, so on arrays only the `Array.isArray` test
matters, and every non-array `steps` value that passes the truthiness test
fails it), require it non-empty, then validate every element. -/
def parseGroqParsed (parsed : Json) (task : Task) :
    Except GroqParseError TaskBreakdown :=
  match parsed.getField "steps" with
  | some (.arr steps) =>
    if steps.isEmpty then .error .emptySteps
    else do
      let validatedSteps ← validateSteps steps 0
      .ok { taskDescription := task.description, steps := validatedSteps }
  | _ => .error .missingStepsArray

/-- `parseGroqResponse` including the `JSON.parse` step: `none` models a
raw reply that is not parseable JSON (the `SyntaxError` re-thrown as the
invalid-JSON error). -/
def parseGroqResponse (parseResult : Option Json) (task : Task) :
    Except GroqParseError TaskBreakdown :=
  match parseResult with
  | none => .error .invalidJson
  | some parsed => parseGroqParsed parsed task

/-! ## Statement vocabulary

Definitions used only to state the properties below: the per-category step
counts of §4.3, the spec's §4.1 decision list (for the refinement claim
about the classifier), the shape test on one reply step, and the slug
well-formedness predicate. -/

/-- The fixed per-category step count (spec §4.3): 6 for CRUD, 7 for
AUTHENTICATION, 5 for REFACTOR, 6 for FEATURE, 4 for BUGFIX, 3 for OTHER. -/
def stepCount : TaskType → Nat
  | .CRUD => 6
  | .AUTHENTICATION => 7
  | .REFACTOR => 5
  | .FEATURE => 6
  | .BUGFIX => 4
  | .OTHER => 3

/-- Modelled from the spec's words (§4.1), for comparison with the code's
classifier: an ordered decision list over the lowercased text, first
matching rule wins.  Rule 1 matches whole words; rules 2–5 match
substrings; rule 2 lists both `auth` and `authentication` as the spec
does. -/
def specClassify (text : String) : TaskType :=
  let lower := lowerStr text.data
  if ["create", "read", "update", "delete", "crud"].any
      (fun w => containsWord w.data lower) then
    .CRUD
  else if ["auth", "authentication", "login", "logout", "register", "signup", "signin"].any
      (fun w => containsSub w.data lower) then
    .AUTHENTICATION
  else if ["refactor", "restructure", "clean up", "improve code"].any
      (fun w => containsSub w.data lower) then
    .REFACTOR
  else if ["feature", "add", "implement", "support", "enhance"].any
      (fun w => containsSub w.data lower) then
    .FEATURE
  else if ["bug", "fix", "error", "issue", "defect", "patch"].any
      (fun w => containsSub w.data lower) then
    .BUGFIX
  else
    .OTHER

/-- The requirements `parseGroqResponse` places on one element of the
`steps` array: a numeric `id`, a string `title` and `description` that are
non-empty after trimming, and an array `files`. -/
def stepShapeOk (j : Json) : Bool :=
  match j.getField "id", j.getField "title", j.getField "description", j.getField "files" with
  | some (.num _), some (.str t), some (.str d), some (.arr _) =>
    !(trimList t.data).isEmpty && !(trimList d.data).isEmpty
  | _, _, _, _ => false

/-- No two adjacent characters of the list both satisfy `p`. -/
def noAdj (p : Char → Bool) : List Char → Bool
  | [] => true
  | [_] => true
  | a :: b :: rest => !(p a && p b) && noAdj p (b :: rest)

/-- A character a sanitized slug may contain: `[a-z0-9-]`. -/
def isSlugChar (c : Char) : Bool := isLowerCh c || isDigitCh c || c == '-'

/-- A well-formed sanitized slug: non-empty, over `[a-z0-9-]`, no hyphen
run, and no hyphen at either end. -/
def goodSlug (l : List Char) : Prop :=
  l ≠ [] ∧ (∀ c ∈ l, isSlugChar c = true) ∧ noAdj isHyphen l = true ∧
    l.head? ≠ some '-' ∧ l.getLast? ≠ some '-'

/-! # Theorems -/

/-! ## Retry interceptor -/

theorem retryRunAux_none (t : Nat → Option AxiosError) (m rc : Nat) (h : t rc = none) :
    retryRunAux t m rc = (none, []) := by
  rw [retryRunAux.eq_def, h]

theorem retryRunAux_stop (t : Nat → Option AxiosError) (m rc : Nat) (e : AxiosError)
    (h : t rc = some e) (hc : ¬(shouldRetry e = true ∧ rc < m)) :
    retryRunAux t m rc = (some e, []) := by
  rw [retryRunAux.eq_def, h]
  simp [hc]

theorem retryRunAux_step (t : Nat → Option AxiosError) (m rc : Nat) (e : AxiosError)
    (h : t rc = some e) (hc : shouldRetry e = true ∧ rc < m) :
    retryRunAux t m rc =
      ((retryRunAux t m (rc + 1)).1,
        2 ^ (rc + 1) * 1000 :: (retryRunAux t m (rc + 1)).2) := by
  rw [retryRunAux.eq_def, h]
  simp [hc]

theorem retryRunAux_len (t : Nat → Option AxiosError) (m : Nat) :
    ∀ fuel rc, m - rc ≤ fuel → (retryRunAux t m rc).2.length ≤ m - rc := by
  intro fuel
  induction fuel with
  | zero =>
    intro rc hf
    match h : t rc with
    | none => rw [retryRunAux_none t m rc h]; simp
    | some e =>
      rw [retryRunAux_stop t m rc e h (fun hc => by omega)]
      simp
  | succ n ih =>
    intro rc hf
    match h : t rc with
    | none => rw [retryRunAux_none t m rc h]; simp
    | some e =>
      by_cases hc : shouldRetry e = true ∧ rc < m
      · rw [retryRunAux_step t m rc e h hc]
        have h2 := ih (rc + 1) (by omega)
        simp only [List.length_cons]
        omega
      · rw [retryRunAux_stop t m rc e h hc]; simp

theorem retryRunAux_last (t : Nat → Option AxiosError) (m : Nat) :
    ∀ fuel rc e, m - rc ≤ fuel → (retryRunAux t m rc).1 = some e →
      t (rc + (retryRunAux t m rc).2.length) = some e := by
  intro fuel
  induction fuel with
  | zero =>
    intro rc e hf h1
    match h : t rc with
    | none => rw [retryRunAux_none t m rc h] at h1; cases h1
    | some e' =>
      have hstop := retryRunAux_stop t m rc e' h (fun hc => by omega)
      rw [hstop] at h1 ⊢
      simp only [List.length_nil, Nat.add_zero]
      simp only at h1
      rw [h, h1]
  | succ n ih =>
    intro rc e hf h1
    match h : t rc with
    | none => rw [retryRunAux_none t m rc h] at h1; cases h1
    | some e' =>
      by_cases hc : shouldRetry e' = true ∧ rc < m
      · have hstep := retryRunAux_step t m rc e' h hc
        rw [hstep] at h1 ⊢
        simp only at h1
        simp only [List.length_cons]
        have h2 := ih (rc + 1) e (by omega) h1
        have harith : rc + ((retryRunAux t m (rc + 1)).2.length + 1) =
            (rc + 1) + (retryRunAux t m (rc + 1)).2.length := by omega
        rw [harith]
        exact h2
      · have hstop := retryRunAux_stop t m rc e' h hc
        rw [hstop] at h1 ⊢
        simp only [List.length_nil, Nat.add_zero]
        simp only at h1
        rw [h, h1]

theorem retryRunAux_delays (t : Nat → Option AxiosError) (m : Nat) :
    ∀ fuel rc, m - rc ≤ fuel →
      (retryRunAux t m rc).2 =
        (List.range' (rc + 1) (retryRunAux t m rc).2.length).map
          (fun k => 2 ^ k * 1000) := by
  intro fuel
  induction fuel with
  | zero =>
    intro rc hf
    match h : t rc with
    | none => rw [retryRunAux_none t m rc h]; simp
    | some e =>
      rw [retryRunAux_stop t m rc e h (fun hc => by omega)]; simp
  | succ n ih =>
    intro rc hf
    match h : t rc with
    | none => rw [retryRunAux_none t m rc h]; simp
    | some e =>
      by_cases hc : shouldRetry e = true ∧ rc < m
      · rw [retryRunAux_step t m rc e h hc]
        simp only [List.length_cons, List.range'_succ, List.map_cons]
        rw [← ih (rc + 1) (by omega)]
      · rw [retryRunAux_stop t m rc e h hc]; simp

/-- C4: a 5xx or no-response failure is retried with strictly sequential
attempts at most `maxRetries` times; a response with a status below 500
(in particular any 4xx) is never retried and is surfaced immediately; and
the error the caller receives is always the outcome of the final attempt,
so after the budget is exhausted the last error propagates. -/
theorem retry_policy :
    (∀ (transport : Nat → Option AxiosError) (maxRetries : Nat),
        (retryRun transport maxRetries).2.length ≤ maxRetries) ∧
    (∀ (transport : Nat → Option AxiosError) (maxRetries : Nat) (e : AxiosError) (s : Nat),
        transport 0 = some e → e.status? = some s → s < 500 →
        retryRun transport maxRetries = (some e, [])) ∧
    (∀ (transport : Nat → Option AxiosError) (maxRetries : Nat) (e : AxiosError),
        (retryRun transport maxRetries).1 = some e →
        transport (retryRun transport maxRetries).2.length = some e) := by
  refine ⟨?_, ?_, ?_⟩
  · intro transport maxRetries
    have h := retryRunAux_len transport maxRetries maxRetries 0 (by omega)
    simpa [retryRun] using h
  · intro transport maxRetries e s h0 hs hlt
    have hsr : shouldRetry e = false := by
      simp [shouldRetry, hs]
      omega
    exact retryRunAux_stop transport maxRetries 0 e h0 (by simp [hsr])
  · intro transport maxRetries e h1
    have h := retryRunAux_last transport maxRetries maxRetries 0 e (by omega) h1
    simpa [retryRun] using h

/-- Witness for C4 at concrete transports: a constant-404 transport is
never retried and its error propagates; the propagated error of a
constant-503 transport is the last attempt's outcome. -/
theorem retry_policy_witness :
    retryRun (fun _ => some ⟨some 404⟩) 3 = (some ⟨some 404⟩, []) ∧
    (fun _ => some (AxiosError.mk (some 503)) : Nat → Option AxiosError)
        ((retryRun (fun _ => some ⟨some 503⟩) 3).2.length) = some ⟨some 503⟩ := by
  refine ⟨retry_policy.2.1 (fun _ => some ⟨some 404⟩) 3 ⟨some 404⟩ 404 rfl rfl (by omega), ?_⟩
  refine retry_policy.2.2 (fun _ => some ⟨some 503⟩) 3 ⟨some 503⟩ ?_
  have h3 : retryRunAux (fun _ => some (AxiosError.mk (some 503))) 3 3 = (some ⟨some 503⟩, []) :=
    retryRunAux_stop _ 3 3 _ rfl (by simp)
  have h2 : retryRunAux (fun _ => some (AxiosError.mk (some 503))) 3 2 =
      (some ⟨some 503⟩, [8000]) := by
    rw [retryRunAux_step _ 3 2 _ rfl (by decide), h3]; rfl
  have h1 : retryRunAux (fun _ => some (AxiosError.mk (some 503))) 3 1 =
      (some ⟨some 503⟩, [4000, 8000]) := by
    rw [retryRunAux_step _ 3 1 _ rfl (by decide), h2]; rfl
  have h0 : retryRun (fun _ => some (AxiosError.mk (some 503))) 3 =
      (some ⟨some 503⟩, [2000, 4000, 8000]) := by
    show retryRunAux _ 3 0 = _
    rw [retryRunAux_step _ 3 0 _ rfl (by decide), h1]; rfl
  rw [h0]

/-- C7: the backoff delay waited before the k-th retry (k starting at 1)
is 2 ^ k seconds — 2000 ms, then 4000 ms, then 8000 ms: the delay list of
any run is an initial segment of that geometric sequence. -/
theorem backoff_exponential (transport : Nat → Option AxiosError) (maxRetries : Nat) :
    (retryRun transport maxRetries).2 =
      (List.range' 1 (retryRun transport maxRetries).2.length).map
        (fun k => 2 ^ k * 1000) := by
  have h := retryRunAux_delays transport maxRetries maxRetries 0 (by omega)
  simpa [retryRun] using h

/-! ## Orchestrator -/

/-- C9: the orchestrator returns exactly the held strategy's result, adds
nothing of its own, and defaults to the template strategy: an `Analyzer`
built with no strategy and the bare `HardcodedStrategy` produce equal
breakdowns on every task. -/
theorem analyzer_delegates :
    (∀ (strategy : AnalyzerStrategy) (task : Task),
        (Analyzer.create (some strategy)).run task = strategy.analyze task) ∧
    (∀ (a : Analyzer) (task : Task), a.run task = a.strategy.analyze task) ∧
    (∀ task : Task, (Analyzer.create none).run task = HardcodedStrategy.analyze task) :=
  ⟨fun _ _ => rfl, fun _ _ => rfl, fun _ => rfl⟩

/-! ## Template strategy: step counts and ids -/

theorem hardcoded_ids (task : Task) :
    (HardcodedStrategy.analyze task).steps.map Step.id =
      (List.range' 1 (stepCount task.type)).map Int.ofNat := by
  obtain ⟨d, ty, sc⟩ := task
  cases ty <;> rfl

theorem hardcoded_ne_nil (task : Task) :
    (HardcodedStrategy.analyze task).steps ≠ [] := by
  obtain ⟨d, ty, sc⟩ := task
  cases ty <;> exact fun h => List.noConfusion h

/-- C3: for every task — whatever its description and scope strings — the
template strategy returns a non-empty breakdown whose step list has the
fixed per-category length (`stepCount`) and whose ids are exactly
`1..stepCount`; the operation is total, hence never fails. -/
theorem template_strategy_shape (task : Task) :
    (HardcodedStrategy.analyze task).steps ≠ [] ∧
    (HardcodedStrategy.analyze task).steps.length = stepCount task.type ∧
    (HardcodedStrategy.analyze task).steps.map Step.id =
      (List.range' 1 (stepCount task.type)).map Int.ofNat := by
  refine ⟨hardcoded_ne_nil task, ?_, hardcoded_ids task⟩
  have h := congrArg List.length (hardcoded_ids task)
  simpa using h

/-! ## The classifier follows the spec's decision list -/

theorem isPrefixOf_trans {a b l : List Char} (h1 : a.isPrefixOf b = true)
    (h2 : b.isPrefixOf l = true) : a.isPrefixOf l = true := by
  rw [List.isPrefixOf_iff_prefix] at h1 h2 ⊢
  exact h1.trans h2

theorem containsSub_of_prefix {a b : List Char} (hab : a.isPrefixOf b = true) :
    ∀ l, containsSub b l = true → containsSub a l = true := by
  intro l
  induction l with
  | nil => intro h; cases b <;> simp_all [containsSub, List.isPrefixOf]
  | cons c cs ih =>
    intro h
    rw [containsSub] at h ⊢
    rcases Bool.or_eq_true_iff.mp h with h1 | h2
    · exact Bool.or_eq_true_iff.mpr (Or.inl (isPrefixOf_trans hab h1))
    · exact Bool.or_eq_true_iff.mpr (Or.inr (ih h2))

theorem auth_rule_eq (l : List Char) :
    (containsSub "auth".data l || containsSub "login".data l ||
      containsSub "logout".data l || containsSub "register".data l ||
      containsSub "signup".data l || containsSub "signin".data l) =
    (containsSub "auth".data l || containsSub "authentication".data l ||
      containsSub "login".data l || containsSub "logout".data l ||
      containsSub "register".data l || containsSub "signup".data l ||
      containsSub "signin".data l) := by
  cases h : containsSub "auth".data l with
  | true => simp
  | false =>
    have hlong : containsSub "authentication".data l = false := by
      cases h2 : containsSub "authentication".data l with
      | false => rfl
      | true =>
        have := containsSub_of_prefix (a := "auth".data) (b := "authentication".data)
          (by decide) l h2
        rw [this] at h
        cases h
    simp [h, hlong]

/-- C2: the classifier realizes the spec's §4.1 decision list exactly — the
six rules, with their keyword sets, evaluated case-insensitively in the
listed order with first-match-wins semantics; in particular a text matching
several rules receives the earliest matching rule's category. -/
theorem classifier_follows_decision_list (text : String) :
    (parseTask text).type = specClassify text := by
  show parseTaskType text = specClassify text
  unfold parseTaskType specClassify
  simp only [List.any_cons, List.any_nil, Bool.or_false, ← Bool.or_assoc]
  rw [auth_rule_eq]

/-! ## Scope extraction: leftmost raw-substring preposition match -/

theorem scanPrep_of_first (l : List Char) (i : Nat) (cap : List Char)
    (hb : ∀ j, j < i → prepAt (l.drop j) = none)
    (hi : prepAt (l.drop i) = some cap) : scanPrep l = some cap := by
  induction l generalizing i with
  | nil =>
    rw [List.drop_nil] at hi
    cases hi.symm.trans (rfl : prepAt [] = none)
  | cons c cs ih =>
    cases i with
    | zero =>
      rw [List.drop_zero] at hi
      rw [scanPrep, hi]
    | succ n =>
      have h0 : prepAt (c :: cs) = none := by
        have := hb 0 (Nat.succ_pos n)
        simpa using this
      rw [scanPrep, h0]
      refine ih n (fun j hj => ?_) (by simpa using hi)
      have := hb (j + 1) (Nat.succ_lt_succ hj)
      simpa using this

/-- C10: the preposition keywords of the scope regex are matched as raw
substrings, with no word boundary: whenever position `i` is the leftmost
position of the description where `in`, `for` or `to` followed by a space
and at least one capture-class character occurs — even when that position
lies inside a longer word — the extracted scope is the trimmed capture that
starts there.  (Witnessed at "Login to the app", whose match at position 3
sits inside "Login" and yields the scope "to the app".) -/
theorem scope_preposition_raw_substring (s : String) (i : Nat) (cap : List Char)
    (hb : ∀ j, j < i → prepAt (s.data.drop j) = none)
    (hi : prepAt (s.data.drop i) = some cap) :
    (parseTask s).scope = String.mk (trimList cap) := by
  have h := scanPrep_of_first s.data i cap hb hi
  simp [parseTask, h]

/-- Witness for C10: the concrete input "Login to the app" matches inside
the word "Login" and gets scope "to the app". -/
theorem scope_preposition_raw_substring_witness :
    (parseTask "Login to the app").scope = "to the app" := by
  have h := scope_preposition_raw_substring "Login to the app" 3 "to the app".data
    (by decide) (by decide)
  simpa using h

/-! ## Remote-model configuration -/

theorem loadConfig_ok (env : String → Option String) (file : FileGroqConfig)
    (cfg : GroqConfig) (h : loadConfig env file = .ok cfg) :
    cfg = { apiKey := jsOrOptStr (env "GROQ_API_KEY") (jsOrOptStr file.apiKey "")
            model := jsOrOptStr (env "GROQ_MODEL") (jsOrOptStr file.model "mixtral-8x7b-32768")
            baseUrl := jsOrOptStr (env "GROQ_BASE_URL")
              (jsOrOptStr file.baseUrl "https://api.groq.com/openai/v1")
            maxRetries := jsOrOptNum file.maxRetries 3
            timeout := jsOrOptNum file.timeout 30000 } ∧
    cfg.apiKey ≠ "" := by
  simp only [loadConfig] at h
  split at h
  · cases h
  · rename_i hne
    cases h
    exact ⟨rfl, hne⟩

/-- Counterexample for C6 as stated: `maxRetries` and `timeout` are not
resolved with environment precedence — `loadConfig` reads only
`GROQ_API_KEY`, `GROQ_MODEL` and `GROQ_BASE_URL` from the environment.
With an environment carrying `GROQ_MAX_RETRIES = "5"` and a file
configuration whose `maxRetries` is 2, the resolved `maxRetries` is the
file's 2, not the environment's 5. -/
theorem config_env_precedence_counterexample :
    loadConfig
        (fun k => if k = "GROQ_MAX_RETRIES" then some "5"
                  else if k = "GROQ_API_KEY" then some "key" else none)
        { apiKey := none, model := none, baseUrl := none,
          maxRetries := some 2, timeout := none } =
      .ok { apiKey := "key", model := "mixtral-8x7b-32768",
            baseUrl := "https://api.groq.com/openai/v1",
            maxRetries := 2, timeout := 30000 } ∧
    (2 : Int) ≠ 5 :=
  ⟨rfl, by decide⟩

/-- C6 amended: at construction, `apiKey`, `model` and `baseUrl` are
resolved with environment values taking precedence over the static file
configuration; `maxRetries` and `timeout` are resolved from the file
configuration only — defaults 3 and 30000, and independent of the
environment; and if the resolved API key is empty, construction fails with
the configuration error instead of producing a usable configuration. -/
theorem config_resolution_rules :
    (∀ (env : String → Option String) (file : FileGroqConfig) (s : String),
        env "GROQ_API_KEY" = some s → s ≠ "" →
        ∀ cfg, loadConfig env file = .ok cfg → cfg.apiKey = s) ∧
    (∀ (env : String → Option String) (file : FileGroqConfig) (s : String),
        env "GROQ_MODEL" = some s → s ≠ "" →
        ∀ cfg, loadConfig env file = .ok cfg → cfg.model = s) ∧
    (∀ (env : String → Option String) (file : FileGroqConfig) (s : String),
        env "GROQ_BASE_URL" = some s → s ≠ "" →
        ∀ cfg, loadConfig env file = .ok cfg → cfg.baseUrl = s) ∧
    (∀ (env : String → Option String) (file : FileGroqConfig) (cfg : GroqConfig),
        loadConfig env file = .ok cfg →
        cfg.maxRetries = jsOrOptNum file.maxRetries 3 ∧
        cfg.timeout = jsOrOptNum file.timeout 30000) ∧
    (∀ (env₁ env₂ : String → Option String) (file : FileGroqConfig)
        (cfg₁ cfg₂ : GroqConfig),
        loadConfig env₁ file = .ok cfg₁ → loadConfig env₂ file = .ok cfg₂ →
        cfg₁.maxRetries = cfg₂.maxRetries ∧ cfg₁.timeout = cfg₂.timeout) ∧
    (∀ (env : String → Option String) (file : FileGroqConfig),
        jsOrOptStr (env "GROQ_API_KEY") (jsOrOptStr file.apiKey "") = "" →
        loadConfig env file =
          .error "Groq API key is required. Set GROQ_API_KEY environment variable or add it to analyzer.config.json") := by
  refine ⟨?_, ?_, ?_, ?_, ?_, ?_⟩
  · intro env file s hs hne cfg h
    rw [(loadConfig_ok env file cfg h).1]
    simp [jsOrOptStr, hs, hne]
  · intro env file s hs hne cfg h
    rw [(loadConfig_ok env file cfg h).1]
    simp [jsOrOptStr, hs, hne]
  · intro env file s hs hne cfg h
    rw [(loadConfig_ok env file cfg h).1]
    simp [jsOrOptStr, hs, hne]
  · intro env file cfg h
    rw [(loadConfig_ok env file cfg h).1]
    exact ⟨rfl, rfl⟩
  · intro env₁ env₂ file cfg₁ cfg₂ h₁ h₂
    rw [(loadConfig_ok env₁ file cfg₁ h₁).1, (loadConfig_ok env₂ file cfg₂ h₂).1]
    exact ⟨rfl, rfl⟩
  · intro env file hk
    simp only [loadConfig]
    rw [if_pos hk]

/-- Witness for C6's amended claim: a concrete environment key wins for
`apiKey`, and a fully empty configuration fails construction. -/
theorem config_resolution_rules_witness :
    ({ apiKey := "k", model := "mixtral-8x7b-32768",
       baseUrl := "https://api.groq.com/openai/v1", maxRetries := 3,
       timeout := 30000 } : GroqConfig).apiKey = "k" ∧
    loadConfig (fun _ => none)
        { apiKey := none, model := none, baseUrl := none,
          maxRetries := none, timeout := none } =
      .error "Groq API key is required. Set GROQ_API_KEY environment variable or add it to analyzer.config.json" :=
  ⟨config_resolution_rules.1
      (fun k => if k = "GROQ_API_KEY" then some "k" else none)
      { apiKey := none, model := none, baseUrl := none,
        maxRetries := none, timeout := none }
      "k" rfl (by decide) _ rfl,
   config_resolution_rules.2.2.2.2.2 (fun _ => none)
      { apiKey := none, model := none, baseUrl := none,
        maxRetries := none, timeout := none } rfl⟩

/-! ## Remote-model response validation -/

theorem mk_eq_empty_iff (l : List Char) : (String.mk l = "") ↔ l = [] := by
  constructor
  · intro h
    exact congrArg String.data h
  · intro h
    rw [h]

theorem validateStep_shape (j : Json) (i : Nat) (s : Step)
    (h : validateStep j i = .ok s) : stepShapeOk j = true := by
  unfold validateStep at h
  repeat' split at h
  any_goals cases h
  unfold stepShapeOk
  simp_all [mk_eq_empty_iff, List.isEmpty_iff]

theorem validateStep_ok_of (j : Json) (i : Nat) (idn : Int) (t d : String)
    (fs : List Json)
    (hid : j.getField "id" = some (.num idn))
    (ht : j.getField "title" = some (.str t))
    (ht' : String.mk (trimList t.data) ≠ "")
    (hd : j.getField "description" = some (.str d))
    (hd' : String.mk (trimList d.data) ≠ "")
    (hf : j.getField "files" = some (.arr fs)) :
    validateStep j i = .ok
      { id := idn, title := String.mk (trimList t.data),
        description := String.mk (trimList d.data),
        files := fs.filterMap Json.asString } := by
  simp only [validateStep, hid, ht, hd, hf, if_neg ht', if_neg hd']

theorem validateStep_ok_of_shape (j : Json) (i : Nat)
    (h : stepShapeOk j = true) : ∃ s, validateStep j i = .ok s := by
  unfold stepShapeOk at h
  split at h
  · rename_i idn t d fs hid ht hd hf
    simp only [Bool.and_eq_true, Bool.not_eq_true', List.isEmpty_eq_false] at h
    exact ⟨_, validateStep_ok_of j i idn t d fs hid ht
      (fun hc => h.1 ((mk_eq_empty_iff _).mp hc)) hd
      (fun hc => h.2 ((mk_eq_empty_iff _).mp hc)) hf⟩
  · cases h

theorem validateSteps_length : ∀ (l : List Json) (i : Nat) (v : List Step),
    validateSteps l i = .ok v → v.length = l.length := by
  intro l
  induction l with
  | nil =>
    intro i v h
    rw [validateSteps] at h
    cases h
    rfl
  | cons j rest ih =>
    intro i v h
    rw [validateSteps] at h
    cases hs : validateStep j i <;> rw [hs] at h <;>
      simp only [Bind.bind, Except.bind] at h
    · cases h
    cases ht : validateSteps rest (i + 1) <;> rw [ht] at h <;>
      simp only [Bind.bind, Except.bind] at h
    · cases h
    cases h
    simp [ih (i + 1) _ ht]

theorem validateSteps_all_shape : ∀ (l : List Json) (i : Nat) (v : List Step),
    validateSteps l i = .ok v → ∀ j ∈ l, stepShapeOk j = true := by
  intro l
  induction l with
  | nil => intro i v _ j hj; cases hj
  | cons j0 rest ih =>
    intro i v h j hj
    rw [validateSteps] at h
    cases hs : validateStep j0 i <;> rw [hs] at h <;>
      simp only [Bind.bind, Except.bind] at h
    · cases h
    cases ht : validateSteps rest (i + 1) <;> rw [ht] at h <;>
      simp only [Bind.bind, Except.bind] at h
    · cases h
    rcases List.mem_cons.mp hj with rfl | hmem
    · exact validateStep_shape j i _ hs
    · exact ih (i + 1) _ ht j hmem

theorem validateSteps_err_of_bad : ∀ (l : List Json) (i : Nat),
    (∃ j ∈ l, stepShapeOk j = false) → ∃ e, validateSteps l i = .error e := by
  intro l
  induction l with
  | nil => intro i h; rcases h with ⟨j, hj, _⟩; cases hj
  | cons j0 rest ih =>
    intro i h
    rw [validateSteps]
    cases hs : validateStep j0 i with
    | error e => exact ⟨e, rfl⟩
    | ok s =>
      rcases h with ⟨j, hj, hbad⟩
      rcases List.mem_cons.mp hj with rfl | hmem
      · rw [validateStep_shape j i s hs] at hbad
        cases hbad
      · rcases ih (i + 1) ⟨j, hmem, hbad⟩ with ⟨e, he⟩
        rw [he]
        exact ⟨e, by simp [Bind.bind, Except.bind]⟩

theorem parseGroqParsed_ok_inv (parsed : Json) (task : Task) (b : TaskBreakdown)
    (h : parseGroqParsed parsed task = .ok b) :
    ∃ steps, parsed.getField "steps" = some (.arr steps) ∧ steps ≠ [] ∧
      b.taskDescription = task.description ∧ validateSteps steps 0 = .ok b.steps := by
  unfold parseGroqParsed at h
  split at h
  · rename_i steps hs
    split at h
    · cases h
    · rename_i hne
      cases hv : validateSteps steps 0 <;> rw [hv] at h <;>
        simp only [Bind.bind, Except.bind] at h
      · cases h
      · rename_i v
        cases h
        exact ⟨steps, hs, by simpa [List.isEmpty_iff] using hne, rfl, hv⟩
  · cases h

/-- C5: the remote strategy's response handling is all-or-nothing.  An
unparseable reply fails; a missing or non-array `steps` field fails; an
empty `steps` array fails; a successful parse returns a breakdown with
exactly as many steps as the reply (never a strict subset) and only when
every step has a numeric `id`, non-empty trimmed `title` and `description`
and an array `files`; any step violating that shape fails the whole call;
and inside a valid step, non-string `files` entries are silently dropped
(`filterMap Json.asString`) rather than causing failure. -/
theorem groq_response_validation :
    (∀ task : Task, parseGroqResponse none task = .error .invalidJson) ∧
    (∀ (parsed : Json) (task : Task),
        (∀ steps, parsed.getField "steps" ≠ some (.arr steps)) →
        parseGroqParsed parsed task = .error .missingStepsArray) ∧
    (∀ (parsed : Json) (task : Task),
        parsed.getField "steps" = some (.arr []) →
        parseGroqParsed parsed task = .error .emptySteps) ∧
    (∀ (parsed : Json) (task : Task) (steps : List Json) (b : TaskBreakdown),
        parsed.getField "steps" = some (.arr steps) →
        parseGroqParsed parsed task = .ok b →
        b.taskDescription = task.description ∧ b.steps.length = steps.length ∧
        ∀ j ∈ steps, stepShapeOk j = true) ∧
    (∀ (parsed : Json) (task : Task) (steps : List Json),
        parsed.getField "steps" = some (.arr steps) →
        (∃ j ∈ steps, stepShapeOk j = false) →
        ∃ err, parseGroqParsed parsed task = .error err) ∧
    (∀ (j : Json) (i : Nat) (idn : Int) (t d : String) (fs : List Json),
        j.getField "id" = some (.num idn) →
        j.getField "title" = some (.str t) →
        String.mk (trimList t.data) ≠ "" →
        j.getField "description" = some (.str d) →
        String.mk (trimList d.data) ≠ "" →
        j.getField "files" = some (.arr fs) →
        validateStep j i = .ok
          { id := idn, title := String.mk (trimList t.data),
            description := String.mk (trimList d.data),
            files := fs.filterMap Json.asString }) := by
  refine ⟨fun _ => rfl, ?_, ?_, ?_, ?_, validateStep_ok_of⟩
  · intro parsed task h
    unfold parseGroqParsed
    split
    · rename_i steps hs
      exact absurd hs (h steps)
    · rfl
  · intro parsed task h
    simp only [parseGroqParsed, h]
    rfl
  · intro parsed task steps b hs h
    rcases parseGroqParsed_ok_inv parsed task b h with ⟨steps', hs', _, hdesc, hv⟩
    rw [hs] at hs'
    cases hs'
    exact ⟨hdesc, validateSteps_length _ 0 _ hv,
      validateSteps_all_shape _ 0 _ hv⟩
  · intro parsed task steps hs hbad
    rcases validateSteps_err_of_bad steps 0 hbad with ⟨e, he⟩
    refine ⟨e, ?_⟩
    have hne : steps.isEmpty = false := by
      rcases hbad with ⟨j, hj, _⟩
      cases steps
      · cases hj
      · rfl
    simp only [parseGroqParsed, hs, hne, Bool.false_eq_true, if_false, he,
      Bind.bind, Except.bind]

/-- Witness for C5: an unparseable reply fails, and a concrete step whose
`files` array mixes strings and non-strings validates with the non-string
entries dropped and the title trimmed. -/
theorem groq_response_validation_witness :
    parseGroqResponse none { description := "x", type := .OTHER, scope := "" } =
      .error .invalidJson ∧
    validateStep
        (.obj [("id", .num 7), ("title", .str " t "), ("description", .str "d"),
          ("files", .arr [.str "a.ts", .num 3, .null, .str "b.ts"])]) 0 =
      .ok { id := 7, title := "t", description := "d", files := ["a.ts", "b.ts"] } :=
  ⟨groq_response_validation.1 { description := "x", type := .OTHER, scope := "" },
   groq_response_validation.2.2.2.2.2
     (.obj [("id", .num 7), ("title", .str " t "), ("description", .str "d"),
       ("files", .arr [.str "a.ts", .num 3, .null, .str "b.ts"])])
     0 7 " t " "d" [.str "a.ts", .num 3, .null, .str "b.ts"]
     rfl rfl (by decide) rfl (by decide) rfl⟩

/-- Counterexample for C1 as stated: the remote strategy's validation only
checks that each `id` is numeric, not that it matches the step's position —
a reply whose single step carries `id` 7 passes validation, so the first
(1-based) step of the returned breakdown has id 7, not 1. -/
theorem llm_ids_counterexample :
    (parseGroqResponse
        (some (.obj [("steps", .arr [.obj [("id", .num 7), ("title", .str "t"),
          ("description", .str "d"), ("files", .arr [])]])]))
        { description := "x", type := .OTHER, scope := "" }).map
      (fun b => b.steps.map Step.id) = .ok [7] ∧ (7 : Int) ≠ 1 :=
  ⟨rfl, by decide⟩

/-- C1 amended: every breakdown the template strategy returns is non-empty
with the i-th (1-based) step carrying id i; every breakdown the remote
strategy returns after successful validation is non-empty, but its step
ids are only guaranteed to be numeric, not to match their positions. -/
theorem breakdown_step_invariant :
    (∀ task : Task,
        (HardcodedStrategy.analyze task).steps ≠ [] ∧
        (HardcodedStrategy.analyze task).steps.map Step.id =
          (List.range' 1 (stepCount task.type)).map Int.ofNat) ∧
    (∀ (parseResult : Option Json) (task : Task) (b : TaskBreakdown),
        parseGroqResponse parseResult task = .ok b → b.steps ≠ []) := by
  constructor
  · exact fun task => ⟨hardcoded_ne_nil task, hardcoded_ids task⟩
  · intro pr task b h
    cases pr with
    | none => cases h
    | some parsed =>
      rcases parseGroqParsed_ok_inv parsed task b h with ⟨steps, _, hne, _, hv⟩
      have hlen := validateSteps_length steps 0 b.steps hv
      intro hnil
      rw [hnil] at hlen
      exact hne (List.eq_nil_of_length_eq_zero hlen.symm)

/-- Witness for C1's amended claim at a concrete task and a concrete
validated reply. -/
theorem breakdown_step_invariant_witness :
    ((HardcodedStrategy.analyze { description := "x", type := .OTHER, scope := "" }).steps ≠ [] ∧
      (HardcodedStrategy.analyze { description := "x", type := .OTHER, scope := "" }).steps.map Step.id =
        (List.range' 1 (stepCount TaskType.OTHER)).map Int.ofNat) ∧
    ({ taskDescription := "x",
       steps := [{ id := 7, title := "t", description := "d", files := [] }] } :
        TaskBreakdown).steps ≠ [] :=
  ⟨breakdown_step_invariant.1 { description := "x", type := .OTHER, scope := "" },
   breakdown_step_invariant.2
     (some (.obj [("steps", .arr [.obj [("id", .num 7), ("title", .str "t"),
       ("description", .str "d"), ("files", .arr [])]])]))
     { description := "x", type := .OTHER, scope := "" }
     { taskDescription := "x",
       steps := [{ id := 7, title := "t", description := "d", files := [] }] }
     rfl⟩

/-! ## Sanitizer: character toolkit -/

theorem char_toNat_ofNat (n : Nat) (h : n < 55296) : (Char.ofNat n).toNat = n := by
  simp [Char.ofNat, Char.ofNatAux, Char.toNat, Nat.isValidChar, h, UInt32.toNat,
    BitVec.toNat_ofNatLt]

theorem char_toNat_inj {c d : Char} (h : c.toNat = d.toNat) : c = d :=
  Char.ext (UInt32.ext h)

theorem char_eq_iff_toNat {c d : Char} : c = d ↔ c.toNat = d.toNat :=
  ⟨fun h => by rw [h], char_toNat_inj⟩

theorem hyphen_toNat : ('-' : Char).toNat = 45 := rfl

theorem beq_hyphen_iff {c : Char} : (c == '-') = true ↔ c.toNat = 45 := by
  rw [beq_iff_eq, char_eq_iff_toNat, hyphen_toNat]

theorem isHyphen_iff {c : Char} : isHyphen c = true ↔ c.toNat = 45 := beq_hyphen_iff

theorem isSlugChar_iff {c : Char} :
    isSlugChar c = true ↔
      (97 ≤ c.toNat ∧ c.toNat ≤ 122) ∨ (48 ≤ c.toNat ∧ c.toNat ≤ 57) ∨ c.toNat = 45 := by
  simp [isSlugChar, isLowerCh, isDigitCh, char_eq_iff_toNat, hyphen_toNat]
  tauto

theorem isAlnumHyphen_iff {c : Char} :
    isAlnumHyphen c = true ↔
      (65 ≤ c.toNat ∧ c.toNat ≤ 90) ∨ (97 ≤ c.toNat ∧ c.toNat ≤ 122) ∨
      (48 ≤ c.toNat ∧ c.toNat ≤ 57) ∨ c.toNat = 45 := by
  simp [isAlnumHyphen, isUpperCh, isLowerCh, isDigitCh, char_eq_iff_toNat]
  tauto

theorem isWs_iff {c : Char} :
    isWs c = true ↔ c.toNat = 32 ∨ (9 ≤ c.toNat ∧ c.toNat ≤ 13) := by
  simp [isWs]

theorem isUnderscoreWs_iff {c : Char} :
    isUnderscoreWs c = true ↔
      c.toNat = 95 ∨ c.toNat = 32 ∨ (9 ≤ c.toNat ∧ c.toNat ≤ 13) := by
  simp [isUnderscoreWs, isWs, char_eq_iff_toNat]

theorem lcChar_toNat (c : Char) :
    (lcChar c).toNat =
      if 65 ≤ c.toNat ∧ c.toNat ≤ 90 then c.toNat + 32 else c.toNat := by
  unfold lcChar
  split
  · rename_i h
    exact char_toNat_ofNat _ (by omega)
  · rfl

theorem lcChar_slug {c : Char} (h : isAlnumHyphen c = true) :
    isSlugChar (lcChar c) = true := by
  rw [isSlugChar_iff, lcChar_toNat]
  rw [isAlnumHyphen_iff] at h
  split <;> omega

theorem lcChar_id_of_slug {c : Char} (h : isSlugChar c = true) : lcChar c = c := by
  unfold lcChar
  rw [isSlugChar_iff] at h
  rw [if_neg (by omega)]

theorem isHyphen_lcChar (c : Char) : isHyphen (lcChar c) = isHyphen c := by
  rw [Bool.eq_iff_iff, isHyphen_iff, isHyphen_iff, lcChar_toNat]
  split <;> omega

/-! ## Sanitizer: `noAdj` lemmas -/

theorem noAdj_cons_iff (p : Char → Bool) (a : Char) (cs : List Char) :
    noAdj p (a :: cs) = true ↔
      noAdj p cs = true ∧ ∀ b, cs.head? = some b → (p a && p b) = false := by
  cases cs with
  | nil => simp [noAdj]
  | cons b bs =>
    simp only [noAdj, Bool.and_eq_true, Bool.not_eq_true', List.head?_cons,
      Option.some.injEq]
    constructor
    · rintro ⟨h1, h2⟩
      exact ⟨h2, fun b' hb => hb ▸ h1⟩
    · rintro ⟨h1, h2⟩
      exact ⟨h2 b rfl, h1⟩

theorem noAdj_tail {p : Char → Bool} {a : Char} {cs : List Char}
    (h : noAdj p (a :: cs) = true) : noAdj p cs = true :=
  ((noAdj_cons_iff p a cs).mp h).1

theorem noAdj_dropWhile (p q : Char → Bool) :
    ∀ l, noAdj q l = true → noAdj q (List.dropWhile p l) = true := by
  intro l
  induction l with
  | nil => intro h; exact h
  | cons a cs ih =>
    intro h
    rw [List.dropWhile_cons]
    split
    · exact ih (noAdj_tail h)
    · exact h

theorem noAdj_snoc_of (p : Char → Bool) (c : Char) :
    ∀ X, noAdj p X = true →
      (∀ b, X.getLast? = some b → (p b && p c) = false) →
      noAdj p (X ++ [c]) = true := by
  intro X
  induction X with
  | nil => intro _ _; simp [noAdj]
  | cons a Y ih =>
    intro h hl
    obtain ⟨hY, hpair⟩ := (noAdj_cons_iff p a Y).mp h
    rw [List.cons_append, noAdj_cons_iff]
    constructor
    · refine ih hY (fun b hb => hl b ?_)
      cases Y with
      | nil => cases hb
      | cons y ys => rw [List.getLast?_cons_cons]; exact hb
    · intro b hb
      cases Y with
      | nil =>
        simp only [List.nil_append, List.head?_cons, Option.some.injEq] at hb
        subst hb
        exact hl a (by simp)
      | cons y ys =>
        simp only [List.cons_append, List.head?_cons, Option.some.injEq] at hb
        subst hb
        exact hpair y rfl

theorem noAdj_reverse_of (p : Char → Bool) :
    ∀ l, noAdj p l = true → noAdj p l.reverse = true := by
  intro l
  induction l with
  | nil => intro h; exact h
  | cons c cs ih =>
    intro h
    obtain ⟨hcs, hpair⟩ := (noAdj_cons_iff p c cs).mp h
    rw [List.reverse_cons]
    refine noAdj_snoc_of p c cs.reverse (ih hcs) (fun b hb => ?_)
    rw [List.getLast?_reverse] at hb
    rw [Bool.and_comm]
    exact hpair b hb

/-! ## Sanitizer: run-replacement lemmas -/

theorem replRunsAux_head_true (p : Char → Bool) (r : Char) :
    ∀ l c, (replRunsAux p r true l).head? = some c → p c = false := by
  intro l
  induction l with
  | nil => intro c h; cases h
  | cons a cs ih =>
    intro c h
    rw [replRunsAux] at h
    by_cases hp : p a
    · rw [if_pos hp, if_pos rfl] at h
      exact ih c h
    · rw [if_neg hp] at h
      simp only [List.head?_cons, Option.some.injEq] at h
      subst h
      exact Bool.not_eq_true _ ▸ hp

theorem replRunsAux_noAdj (p : Char → Bool) (r : Char) :
    ∀ l inRun, noAdj p (replRunsAux p r inRun l) = true := by
  intro l
  induction l with
  | nil => intro b; rfl
  | cons a cs ih =>
    intro b
    rw [replRunsAux]
    by_cases hp : p a
    · rw [if_pos hp]
      cases b
      · rw [if_neg (by exact fun h => Bool.noConfusion h)]
        refine (noAdj_cons_iff p r _).mpr ⟨ih true, fun b hb => ?_⟩
        rw [replRunsAux_head_true p r cs b hb, Bool.and_false]
      · rw [if_pos rfl]
        exact ih true
    · rw [if_neg hp]
      refine (noAdj_cons_iff p a _).mpr ⟨ih false, fun b _ => ?_⟩
      rw [Bool.not_eq_true] at hp
      rw [hp, Bool.false_and]

theorem replRunsAux_mem (p : Char → Bool) (r : Char) :
    ∀ l inRun c, c ∈ replRunsAux p r inRun l → c = r ∨ (c ∈ l ∧ p c = false) := by
  intro l
  induction l with
  | nil => intro b c h; cases h
  | cons a cs ih =>
    intro b c h
    rw [replRunsAux] at h
    by_cases hp : p a
    · rw [if_pos hp] at h
      cases b
      · rw [if_neg (by exact fun hx => Bool.noConfusion hx)] at h
        rcases List.mem_cons.mp h with rfl | hmem
        · exact Or.inl rfl
        · rcases ih true c hmem with h1 | ⟨h2, h3⟩
          · exact Or.inl h1
          · exact Or.inr ⟨List.mem_cons_of_mem a h2, h3⟩
      · rw [if_pos rfl] at h
        rcases ih true c h with h1 | ⟨h2, h3⟩
        · exact Or.inl h1
        · exact Or.inr ⟨List.mem_cons_of_mem a h2, h3⟩
    · rw [if_neg hp] at h
      rcases List.mem_cons.mp h with rfl | hmem
      · exact Or.inr ⟨List.mem_cons_self c cs, Bool.not_eq_true _ ▸ hp⟩
      · rcases ih false c hmem with h1 | ⟨h2, h3⟩
        · exact Or.inl h1
        · exact Or.inr ⟨List.mem_cons_of_mem a h2, h3⟩

theorem replRunsAux_id_of_none (p : Char → Bool) (r : Char) :
    ∀ l, (∀ c ∈ l, p c = false) → ∀ b, replRunsAux p r b l = l := by
  intro l
  induction l with
  | nil => intro _ b; rfl
  | cons a cs ih =>
    intro h b
    rw [replRunsAux, if_neg (by rw [h a (List.mem_cons_self a cs)]; exact fun hx => Bool.noConfusion hx)]
    rw [ih (fun c hc => h c (List.mem_cons_of_mem a hc)) false]

theorem replRunsAux_id_of_noAdj (p : Char → Bool) (r : Char)
    (hpr : ∀ c, p c = true → c = r) :
    ∀ l, noAdj p l = true →
      replRunsAux p r false l = l ∧
        ((∀ c, l.head? = some c → p c = false) → replRunsAux p r true l = l) := by
  intro l
  induction l with
  | nil => exact fun _ => ⟨rfl, fun _ => rfl⟩
  | cons a cs ih =>
    intro h
    obtain ⟨hcs, hpair⟩ := (noAdj_cons_iff p a cs).mp h
    obtain ⟨ihf, iht⟩ := ih hcs
    constructor
    · rw [replRunsAux]
      by_cases hp : p a
      · rw [if_pos hp, if_neg (by exact fun hx => Bool.noConfusion hx)]
        have hhead : ∀ c, cs.head? = some c → p c = false := by
          intro c hc
          have hx := hpair c hc
          rw [hp, Bool.true_and] at hx
          exact hx
        rw [iht hhead, hpr a hp]
      · rw [if_neg hp, ihf]
    · intro hhead
      have hp : p a = false := hhead a rfl
      rw [replRunsAux, if_neg (by rw [hp]; exact fun hx => Bool.noConfusion hx), ihf]

/-! ## Sanitizer: trimming lemmas -/

theorem dropWhile_id_of_head (p : Char → Bool) (l : List Char)
    (h : ∀ c, l.head? = some c → p c = false) : l.dropWhile p = l := by
  cases l with
  | nil => rfl
  | cons a cs =>
    rw [List.dropWhile_cons, if_neg (by rw [h a rfl]; exact fun hx => Bool.noConfusion hx)]

theorem head?_dropWhile_false (p : Char → Bool) :
    ∀ l c, (List.dropWhile p l).head? = some c → p c = false := by
  intro l
  induction l with
  | nil => intro c h; cases h
  | cons a cs ih =>
    intro c h
    rw [List.dropWhile_cons] at h
    split at h
    · exact ih c h
    · simp only [List.head?_cons, Option.some.injEq] at h
      subst h
      rename_i hp
      exact Bool.not_eq_true _ ▸ hp

theorem getLast?_dropWhile (p : Char → Bool) :
    ∀ l, List.dropWhile p l ≠ [] → (List.dropWhile p l).getLast? = l.getLast? := by
  intro l
  induction l with
  | nil => intro h; exact absurd rfl h
  | cons a cs ih =>
    intro h
    rw [List.dropWhile_cons] at h ⊢
    split
    · rename_i hp
      rw [if_pos hp] at h
      cases cs with
      | nil => exact absurd rfl h
      | cons y ys =>
        rw [List.getLast?_cons_cons]
        exact ih h
    · rfl

theorem trim_pattern_mem (p : Char → Bool) (l : List Char) (c : Char)
    (h : c ∈ ((l.dropWhile p).reverse.dropWhile p).reverse) : c ∈ l := by
  rw [List.mem_reverse] at h
  have h2 := (List.dropWhile_sublist p).subset h
  rw [List.mem_reverse] at h2
  exact (List.dropWhile_sublist p).subset h2

theorem trim_pattern_noAdj (q p : Char → Bool) (l : List Char)
    (h : noAdj q l = true) :
    noAdj q (((l.dropWhile p).reverse.dropWhile p).reverse) = true :=
  noAdj_reverse_of q _ (noAdj_dropWhile p q _ (noAdj_reverse_of q _
    (noAdj_dropWhile p q l h)))

theorem trim_pattern_last (p : Char → Bool) (l : List Char) (c : Char)
    (h : (((l.dropWhile p).reverse.dropWhile p).reverse).getLast? = some c) :
    p c = false := by
  rw [List.getLast?_reverse] at h
  exact head?_dropWhile_false p _ c h

theorem trim_pattern_head (p : Char → Bool) (l : List Char) (c : Char)
    (h : (((l.dropWhile p).reverse.dropWhile p).reverse).head? = some c) :
    p c = false := by
  rw [List.head?_reverse] at h
  have hne : List.dropWhile p ((l.dropWhile p).reverse) ≠ [] := by
    intro hB
    rw [hB] at h
    cases h
  rw [getLast?_dropWhile p _ hne, List.getLast?_reverse] at h
  exact head?_dropWhile_false p l c h

theorem trim_pattern_id (p : Char → Bool) (l : List Char)
    (hh : ∀ c, l.head? = some c → p c = false)
    (hl : ∀ c, l.getLast? = some c → p c = false) :
    ((l.dropWhile p).reverse.dropWhile p).reverse = l := by
  rw [dropWhile_id_of_head p l hh]
  rw [dropWhile_id_of_head p l.reverse
    (fun c hc => hl c (by rw [List.head?_reverse] at hc; exact hc))]
  exact List.reverse_reverse l

theorem map_id_of_mem {f : Char → Char} :
    ∀ l : List Char, (∀ c ∈ l, f c = c) → l.map f = l := by
  intro l
  induction l with
  | nil => intro _; rfl
  | cons a cs ih =>
    intro h
    rw [List.map_cons, h a (List.mem_cons_self a cs),
      ih (fun c hc => h c (List.mem_cons_of_mem a hc))]

/-! ## Sanitizer: pipeline facts and idempotence -/

theorem mem_of_head?_eq {l : List Char} {c : Char} (h : l.head? = some c) : c ∈ l := by
  cases l with
  | nil => cases h
  | cons a cs =>
    cases h
    exact List.mem_cons_self _ _

theorem mem_of_getLast?_eq {l : List Char} {c : Char} (h : l.getLast? = some c) :
    c ∈ l := by
  rw [← List.head?_reverse] at h
  have h2 := mem_of_head?_eq h
  rw [List.mem_reverse] at h2
  exact h2

theorem noAdj_map_lc : ∀ X, noAdj isHyphen (X.map lcChar) = noAdj isHyphen X := by
  intro X
  induction X with
  | nil => rfl
  | cons a Y ih =>
    cases Y with
    | nil => rfl
    | cons b Z =>
      simp only [List.map_cons] at ih ⊢
      simp only [noAdj, isHyphen_lcChar]
      rw [ih]

theorem sanitizePipeline_chars (l : List Char) :
    ∀ c ∈ sanitizePipeline l, isSlugChar c = true := by
  intro c hc
  simp only [sanitizePipeline, trimHyphens] at hc
  have hc5 := trim_pattern_mem isHyphen _ c hc
  rcases List.mem_map.mp hc5 with ⟨d, hd4, rfl⟩
  simp only [replRuns] at hd4
  rcases replRunsAux_mem isHyphen '-' _ false d hd4 with rfl | ⟨hd3, _⟩
  · decide
  · exact lcChar_slug (List.mem_filter.mp hd3).2

theorem sanitizePipeline_good (l : List Char) (h : sanitizePipeline l ≠ []) :
    goodSlug (sanitizePipeline l) := by
  refine ⟨h, sanitizePipeline_chars l, ?_, ?_, ?_⟩
  · show noAdj isHyphen (sanitizePipeline l) = true
    simp only [sanitizePipeline, trimHyphens]
    apply trim_pattern_noAdj
    rw [noAdj_map_lc]
    simp only [replRuns]
    exact replRunsAux_noAdj isHyphen '-' _ false
  · intro hh
    simp only [sanitizePipeline, trimHyphens] at hh
    exact absurd (trim_pattern_head isHyphen _ '-' hh) (by decide)
  · intro hh
    simp only [sanitizePipeline, trimHyphens] at hh
    exact absurd (trim_pattern_last isHyphen _ '-' hh) (by decide)

theorem sanitizePipeline_id (m : List Char) (hg : goodSlug m) :
    sanitizePipeline m = m := by
  obtain ⟨hne, hchars, hnoadj, hhead, hlast⟩ := hg
  have hnw : ∀ c ∈ m, isWs c = false := by
    intro c hc
    have h1 := isSlugChar_iff.mp (hchars c hc)
    cases hb : isWs c
    · rfl
    · have h2 := isWs_iff.mp hb
      omega
  have huw : ∀ c ∈ m, isUnderscoreWs c = false := by
    intro c hc
    have h1 := isSlugChar_iff.mp (hchars c hc)
    cases hb : isUnderscoreWs c
    · rfl
    · have h2 := isUnderscoreWs_iff.mp hb
      omega
  have halnum : ∀ c ∈ m, isAlnumHyphen c = true := by
    intro c hc
    have h1 := isSlugChar_iff.mp (hchars c hc)
    rw [isAlnumHyphen_iff]
    omega
  have e1 : trimList m = m := by
    unfold trimList
    exact trim_pattern_id isWs m (fun c hc => hnw c (mem_of_head?_eq hc))
      (fun c hc => hnw c (mem_of_getLast?_eq hc))
  have e2 : replRuns isUnderscoreWs '-' m = m := replRunsAux_id_of_none _ _ m huw false
  have e3 : List.filter isAlnumHyphen m = m := List.filter_eq_self.mpr halnum
  have e4 : replRuns isHyphen '-' m = m :=
    (replRunsAux_id_of_noAdj isHyphen '-' (fun c hc => eq_of_beq hc) m hnoadj).1
  have e5 : List.map lcChar m = m :=
    map_id_of_mem m (fun c hc => lcChar_id_of_slug (hchars c hc))
  have e6 : trimHyphens m = m := by
    unfold trimHyphens
    refine trim_pattern_id isHyphen m (fun c hc => ?_) (fun c hc => ?_)
    · cases hb : isHyphen c
      · rfl
      · exact absurd (by rw [← eq_of_beq hb]; exact hc) hhead
    · cases hb : isHyphen c
      · rfl
      · exact absurd (by rw [← eq_of_beq hb]; exact hc) hlast
  show sanitizePipeline m = m
  simp only [sanitizePipeline]
  rw [e1, e2, e3, e4, e5, e6]

/-- C8: the template strategy's scope sanitization is idempotent —
sanitizing an already-sanitized scope, including the fallback slug
`"scope"`, returns it unchanged. -/
theorem sanitizeScope_idempotent (s : String) :
    sanitizeScope (sanitizeScope s) = sanitizeScope s := by
  have hscope : sanitizeScope "scope" = "scope" := by decide
  by_cases hs : s = ""
  · rw [hs]
    have h0 : sanitizeScope "" = "scope" := rfl
    rw [h0]
    exact hscope
  · have hdef : sanitizeScope s =
        if sanitizePipeline s.data = [] then "scope"
        else String.mk (sanitizePipeline s.data) := by
      simp only [sanitizeScope, if_neg hs]
    by_cases hp : sanitizePipeline s.data = []
    · rw [hdef, if_pos hp]
      exact hscope
    · rw [hdef, if_neg hp]
      have hg := sanitizePipeline_good s.data hp
      have hmne : (String.mk (sanitizePipeline s.data)) ≠ "" :=
        fun h => hp ((mk_eq_empty_iff _).mp h)
      simp only [sanitizeScope, if_neg hmne]
      rw [sanitizePipeline_id _ hg, if_neg hp]

end MiniTraycer
